import Mathlib

/-!
Verification of the decode/body-stream subsystem of `may_minihttp`
(`src/request.rs`), over a shallow embedding:

* bytes are `Nat` (values of `u8`), byte buffers are `List Nat`;
* the per-connection socket is a finite list of chunks, each chunk being
  either a block of bytes delivered by one successful `TcpStream::read`
  or an I/O error;
* the external `httparse` tokenizer and the missing `http_server.rs`
  helpers (`reserve_buf`) are modelled from the spec at their interface
  boundary, as documented on the corresponding definitions.
-/

set_option maxHeartbeats 1000000

namespace MayMinihttp

/-- `MaxHeaders` from `src/request.rs`: selects how many header slots the
parser allocates. -/
inductive MaxHeaders where
  | Default
  | Standard
  | Large
  | XLarge
  | Custom (n : Nat)
deriving DecidableEq

/-- `MaxHeaders::value` from `src/request.rs` (lines 136-157). -/
def MaxHeaders.value : MaxHeaders → Nat
  | .Default => 16
  | .Standard => 32
  | .Large => 64
  | .XLarge => 128
  | .Custom n => if n = 0 then 16 else if n > 256 then 256 else n

/-- C7: `MaxHeaders::value` is pure and total: the named presets `Default`,
`Standard`, `Large`, `XLarge` return exactly 16, 32, 64, 128, and for every
`n`, `Custom n` maps to 16 if `n = 0`, to 256 if `n > 256`, and to `n`
otherwise. -/
theorem c7_maxHeaders_value :
    (MaxHeaders.Default.value = 16 ∧ MaxHeaders.Standard.value = 32 ∧
     MaxHeaders.Large.value = 64 ∧ MaxHeaders.XLarge.value = 128) ∧
    ∀ n : Nat,
      (n = 0 → (MaxHeaders.Custom n).value = 16) ∧
      (n > 256 → (MaxHeaders.Custom n).value = 256) ∧
      (n ≠ 0 → n ≤ 256 → (MaxHeaders.Custom n).value = n) := by
  refine ⟨by decide, fun n => ⟨fun h => ?_, fun h => ?_, fun h h' => ?_⟩⟩ <;>
    · simp only [MaxHeaders.value]
      split_ifs <;> omega

/-- Witness for C7 at concrete inputs 0, 300 and 100. -/
theorem c7_maxHeaders_value_witness :
    (MaxHeaders.Custom 0).value = 16 ∧ (MaxHeaders.Custom 300).value = 256 ∧
    (MaxHeaders.Custom 100).value = 100 :=
  ⟨(c7_maxHeaders_value.2 0).1 rfl,
   (c7_maxHeaders_value.2 300).2.1 (by norm_num),
   (c7_maxHeaders_value.2 100).2.2 (by norm_num) (by norm_num)⟩

/-! ### Byte-level utilities used by `decode` -/

/-- Check whether a byte list begins with the 4-byte sequence CR LF CR LF. -/
def isTermAt : List Nat → Bool
  | 13 :: 10 :: 13 :: 10 :: _ => true
  | _ => false

/-- Model of `buf.windows(4).any(|w| w == b"\r\n\r\n")` from `decode` in
`src/request.rs` (line 312): does the buffer contain the header terminator? -/
def hasTerminator : List Nat → Bool
  | [] => false
  | b :: rest => isTermAt (b :: rest) || hasTerminator rest

/-- Check whether a byte list begins with CR LF, modelling
`line.starts_with(b"\r\n")` from the `TooManyHeaders` diagnostic in
`src/request.rs` (line 328). -/
def startsWithCRLF (l : List Nat) : Bool := l.take 2 == [13, 10]

/-- Model of Rust's `buf.split(|&b| b == b'\n')` on byte slices: split the
list on LF bytes, the separators being removed; a trailing LF yields a final
empty segment, and the empty list yields one empty segment. -/
def splitLF : List Nat → List (List Nat)
  | [] => [[]]
  | b :: rest =>
    if b = 10 then [] :: splitLF rest
    else
      match splitLF rest with
      | [] => [[b]]
      | seg :: segs => (b :: seg) :: segs

/-- Model of the filter in the `TooManyHeaders` diagnostic of
`src/request.rs` (lines 325-330): a line counts as header-looking when it is
nonempty, contains a colon, and does not start with CR LF. -/
def headerLike (line : List Nat) : Bool :=
  !line.isEmpty && line.contains 58 && !startsWithCRLF line

/-- Model of the header-count diagnostic computed by `decode` in
`src/request.rs` (lines 325-331). -/
def countHeaderLines (buf : List Nat) : Nat :=
  List.countP headerLike (splitLF buf)

/-- Split a byte list at the first occurrence of `sep`, returning the bytes
before it and the bytes after it (the separator consumed), or `none` when
`sep` does not occur. -/
def splitUntil (sep : Nat) : List Nat → Option (List Nat × List Nat)
  | [] => none
  | b :: rest =>
    if b = sep then some ([], rest)
    else
      match splitUntil sep rest with
      | none => none
      | some (pre, post) => some (b :: pre, post)

/-! ### Tokenizer model

Modelled from the spec: the repository delegates header tokenization to the
external `httparse` crate (an external collaborator, specified at its
interface boundary): given a byte slice and a fixed number of header slots,
it returns either "incomplete", a parsed (method, path, version, headers,
consumed-byte-count), or a typed parse error with a distinguishable
"too many headers" case. -/

/-- Outcome of parsing the header lines after the request line. -/
inductive HdrsResult where
  | complete (hs : List (List Nat × List Nat)) (rest : List Nat)
  | incomplete
  | errTooMany
  | errGeneric
deriving DecidableEq

/-- Modelled from the spec: the header-line loop of the external tokenizer.
Reads `name: value` CR LF lines until a bare CR LF terminator; a header
found when all `cap` slots are filled is the distinguishable "too many
headers" error. Leading spaces of a value are skipped. `fuel` bounds the
recursion and is instantiated with the input length. -/
def parseHeaders (cap : Nat) : Nat → List Nat → List (List Nat × List Nat) → HdrsResult
  | 0, _, _ => .incomplete
  | fuel + 1, l, acc =>
    if l.take 2 = [13, 10] then .complete acc.reverse (l.drop 2)
    else if l = [] then .incomplete
    else if cap ≤ acc.length then .errTooMany
    else
      match splitUntil 58 l with
      | none => .errGeneric
      | some (name, r1) =>
        if name = [] ∨ 13 ∈ name ∨ 10 ∈ name then .errGeneric
        else
          match splitUntil 13 (r1.dropWhile (fun b => b == 32)) with
          | none => .incomplete
          | some (value, r3) =>
            if 10 ∈ value then .errGeneric
            else
              match r3 with
              | 10 :: r4 => parseHeaders cap fuel r4 ((name, value) :: acc)
              | _ => .errGeneric

/-- Modelled from the spec: the version part of the request line; the
tokenizer accepts exactly `HTTP/1.0` or `HTTP/1.1` followed by CR LF and
reports the minor version. -/
def parseVersion : List Nat → Option (Nat × List Nat)
  | 72 :: 84 :: 84 :: 80 :: 47 :: 49 :: 46 :: d :: 13 :: 10 :: rest =>
    if d = 48 then some (0, rest) else if d = 49 then some (1, rest) else none
  | _ => none

/-- Outcome of the tokenizer on a whole request head. -/
inductive TokResult where
  | complete (method path : List Nat) (version : Nat)
      (headers : List (List Nat × List Nat)) (amt : Nat)
  | incomplete
  | errTooManyHeaders
  | errGeneric
deriving DecidableEq

/-- Modelled from the spec: the external tokenizer on a whole request head:
`method SP path SP version CRLF` followed by header lines and the blank-line
terminator; on success it reports the consumed byte count of the header
block. -/
def parseRequestHead (cap : Nat) (buf : List Nat) : TokResult :=
  match splitUntil 32 buf with
  | none => .errGeneric
  | some (m, r1) =>
    if m = [] ∨ 13 ∈ m ∨ 10 ∈ m then .errGeneric
    else
      match splitUntil 32 r1 with
      | none => .errGeneric
      | some (p, r2) =>
        if p = [] ∨ 13 ∈ p ∨ 10 ∈ p then .errGeneric
        else
          match parseVersion r2 with
          | none => .errGeneric
          | some (v, r3) =>
            match parseHeaders cap (r3.length + 1) r3 [] with
            | .complete hs rest => .complete m p v hs (buf.length - rest.length)
            | .incomplete => .incomplete
            | .errTooMany => .errTooManyHeaders
            | .errGeneric => .errGeneric

/-! ### The decoder -/

/-- Result of one `decode` call from `src/request.rs` (lines 298-370).
`needMoreData` models `Ok(None)`; `decoded` models `Ok(Some(request))`
together with the consumed header-block byte count the buffer was advanced
by; the error constructors model the `io::Error` cases, carrying the
numbers reported in the `TooManyHeaders` diagnostic message. -/
inductive DecodeResult where
  | needMoreData
  | decoded (method path : List Nat) (version : Nat)
      (headers : List (List Nat × List Nat)) (amt : Nat)
  | errTooManyHeaders (count limit overBy : Nat)
  | errGeneric
deriving DecidableEq

/-- Model of `decode` from `src/request.rs` (lines 298-370), over the pending
bytes of `req_buf`. Returns the decode outcome together with the pending
bytes after the call: untouched on `needMoreData` and on errors, advanced
past the consumed header block on success. -/
def decode (cap : Nat) (buf : List Nat) : DecodeResult × List Nat :=
  if hasTerminator buf then
    match parseRequestHead cap buf with
    | .complete m p v hs amt => (.decoded m p v hs amt, buf.drop amt)
    | .incomplete => (.needMoreData, buf)
    | .errTooManyHeaders =>
      let hc := countHeaderLines buf
      (.errTooManyHeaders hc cap (hc - cap), buf)
    | .errGeneric => (.errGeneric, buf)
  else (.needMoreData, buf)

/-- Iterated `decode`: `repeatDecode cap buf n` performs `n + 1` successive
`decode` calls, each on the buffer left by the previous call. -/
def repeatDecode (cap : Nat) (buf : List Nat) : Nat → DecodeResult × List Nat
  | 0 => decode cap buf
  | n + 1 => decode cap (repeatDecode cap buf n).2

/-- C4: for every buffer whose pending bytes do not contain the CR LF CR LF
terminator, `decode` returns the need-more-data signal without mutating the
buffer, for every header capacity (the tokenizer is never consulted), and
repeating the call any number of times returns the same signal and leaves
the buffer unchanged. -/
theorem c4_needMoreData_idempotent (buf : List Nat)
    (h : hasTerminator buf = false) :
    ∀ (cap n : Nat), repeatDecode cap buf n = (.needMoreData, buf) := by
  intro cap n
  induction n with
  | zero => simp [repeatDecode, decode, h]
  | succ n ih => simp [repeatDecode, ih, decode, h]

/-- Witness for C4: the terminator-free buffer `"GET / HTT"` at capacity 16,
repeated three times. -/
theorem c4_needMoreData_idempotent_witness :
    hasTerminator [71, 69, 84, 32, 47, 32, 72, 84, 84] = false ∧
    repeatDecode 16 [71, 69, 84, 32, 47, 32, 72, 84, 84] 2 =
      (.needMoreData, [71, 69, 84, 32, 47, 32, 72, 84, 84]) :=
  ⟨by decide, c4_needMoreData_idempotent _ (by decide) 16 2⟩

/-! ### Serialized well-formed requests

To state C5, C6 and C8 about "a buffer containing a complete request", a
complete request is described by its abstract parts, serialized to bytes in
standard HTTP/1.1 framing (spec §6: method SP path SP version CRLF,
header-lines CRLF, blank-line CRLF terminator). -/

/-- Serialize one header as `name: value CR LF`. -/
def mkHeaderLine (h : List Nat × List Nat) : List Nat :=
  h.1 ++ 58 :: 32 :: h.2 ++ [13, 10]

/-- Serialize a request head: request line, header lines, blank-line
terminator. The version byte is `48 + v` after the literal `HTTP/1.`. -/
def mkRequest (m p : List Nat) (v : Nat) (hs : List (List Nat × List Nat)) : List Nat :=
  m ++ 32 :: p ++ 32 :: 72 :: 84 :: 84 :: 80 :: 47 :: 49 :: 46 :: (48 + v) :: 13 :: 10 ::
    ((hs.map mkHeaderLine).flatten ++ [13, 10])

/-- A well-formed method or path token: nonempty, no SP, CR or LF bytes. -/
def wfToken (t : List Nat) : Prop :=
  t ≠ [] ∧ ∀ b ∈ t, b ≠ 32 ∧ b ≠ 13 ∧ b ≠ 10

instance : DecidablePred wfToken := fun t => by unfold wfToken; infer_instance

/-- A well-formed header name: nonempty, no colon, CR or LF bytes. -/
def wfName (n : List Nat) : Prop :=
  n ≠ [] ∧ ∀ b ∈ n, b ≠ 58 ∧ b ≠ 13 ∧ b ≠ 10

instance : DecidablePred wfName := fun n => by unfold wfName; infer_instance

/-- A well-formed header value: no CR or LF bytes and no leading space. -/
def wfValue (v : List Nat) : Prop :=
  (∀ b ∈ v, b ≠ 13 ∧ b ≠ 10) ∧ v.head? ≠ some 32

instance : DecidablePred wfValue := fun v => by unfold wfValue; infer_instance

/-- A well-formed header: well-formed name and value. -/
def wfHdr (h : List Nat × List Nat) : Prop :=
  wfName h.1 ∧ wfValue h.2

instance : DecidablePred wfHdr := fun h => by unfold wfHdr; infer_instance

/-- A well-formed request head: well-formed method, path and headers, and an
HTTP/1.0 or HTTP/1.1 version. -/
def wfRequest (m p : List Nat) (v : Nat) (hs : List (List Nat × List Nat)) : Prop :=
  wfToken m ∧ wfToken p ∧ v ≤ 1 ∧ ∀ h ∈ hs, wfHdr h

instance (m p : List Nat) (v : Nat) (hs : List (List Nat × List Nat)) :
    Decidable (wfRequest m p v hs) := by unfold wfRequest; infer_instance

/-! ### Lemmas about the byte-level utilities -/

theorem splitUntil_append (sep : Nat) (a b : List Nat) (h : sep ∉ a) :
    splitUntil sep (a ++ sep :: b) = some (a, b) := by
  induction a with
  | nil => simp [splitUntil]
  | cons x xs ih =>
    have hx : x ≠ sep := fun he => h (by simp [he])
    have hxs : sep ∉ xs := fun hm => h (by simp [hm])
    simp [splitUntil, hx, ih hxs]

theorem hasTerminator_append_right (a b : List Nat) (h : hasTerminator b = true) :
    hasTerminator (a ++ b) = true := by
  induction a with
  | nil => simpa using h
  | cons x xs ih => simp [hasTerminator, ih]

theorem hasTerminator_pattern (b : List Nat) :
    hasTerminator (13 :: 10 :: 13 :: 10 :: b) = true := by
  simp [hasTerminator, isTermAt]

theorem hasTerminator_lines (hs : List (List Nat × List Nat)) (rest : List Nat) :
    hasTerminator (13 :: 10 :: ((hs.map mkHeaderLine).flatten ++ 13 :: 10 :: rest)) = true := by
  induction hs with
  | nil => simpa using hasTerminator_pattern rest
  | cons h t ih =>
    have : (13 : Nat) :: 10 :: (((h :: t).map mkHeaderLine).flatten ++ 13 :: 10 :: rest)
        = (13 :: 10 :: h.1 ++ 58 :: 32 :: h.2) ++
          (13 :: 10 :: ((t.map mkHeaderLine).flatten ++ 13 :: 10 :: rest)) := by
      simp [mkHeaderLine, List.append_assoc]
    rw [this]
    exact hasTerminator_append_right _ _ ih

theorem hasTerminator_mkRequest (m p : List Nat) (v : Nat)
    (hs : List (List Nat × List Nat)) (rest : List Nat) :
    hasTerminator (mkRequest m p v hs ++ rest) = true := by
  have : mkRequest m p v hs ++ rest
      = (m ++ 32 :: p ++ [32, 72, 84, 84, 80, 47, 49, 46, 48 + v]) ++
        (13 :: 10 :: ((hs.map mkHeaderLine).flatten ++ 13 :: 10 :: rest)) := by
    simp [mkRequest, List.append_assoc]
  rw [this]
  exact hasTerminator_append_right _ _ (hasTerminator_lines hs rest)

theorem dropWhile_space_of_head (l : List Nat) (h : l.head? ≠ some 32) :
    l.dropWhile (fun b => b == 32) = l := by
  cases l with
  | nil => rfl
  | cons x xs =>
    have hx : x ≠ 32 := fun he => h (by simp [he])
    simp [List.dropWhile_cons, hx]

theorem head_ne_32_append (vl : List Nat) (x : Nat) (xs : List Nat) (hx : x ≠ 32)
    (h : vl.head? ≠ some 32) : (vl ++ x :: xs).head? ≠ some 32 := by
  cases vl <;> simp_all

/-- One step of `parseHeaders` across a serialized well-formed header line,
when a header slot is still free. -/
theorem parseHeaders_step (cap f : Nat) (b : Nat) (n' vl tail : List Nat)
    (acc : List (List Nat × List Nat)) (hwfh : wfHdr (b :: n', vl))
    (hacc : acc.length < cap) :
    parseHeaders cap (f + 1) (b :: (n' ++ 58 :: 32 :: (vl ++ 13 :: 10 :: tail))) acc
      = parseHeaders cap f tail ((b :: n', vl) :: acc) := by
  obtain ⟨⟨-, hnb⟩, hvb, hvh⟩ := hwfh
  have hb13 : b ≠ 13 := (hnb b (by simp)).2.1
  have hc1 : ¬ ((b :: (n' ++ 58 :: 32 :: (vl ++ 13 :: 10 :: tail))).take 2 = [13, 10]) := by
    have e : (b :: (n' ++ 58 :: 32 :: (vl ++ 13 :: 10 :: tail))).take 2
        = b :: (n' ++ 58 :: 32 :: (vl ++ 13 :: 10 :: tail)).take 1 := rfl
    rw [e]
    simp [hb13]
  have hc2 : (b :: (n' ++ 58 :: 32 :: (vl ++ 13 :: 10 :: tail)) : List Nat) ≠ [] := by simp
  have hc3 : ¬ (cap ≤ acc.length) := by omega
  have hsplit1 : splitUntil 58 (b :: (n' ++ 58 :: 32 :: (vl ++ 13 :: 10 :: tail)))
      = some (b :: n', 32 :: (vl ++ 13 :: 10 :: tail)) := by
    have h58 : 58 ∉ (b :: n' : List Nat) := fun hm => (hnb _ hm).1 rfl
    simpa using splitUntil_append 58 (b :: n') (32 :: (vl ++ 13 :: 10 :: tail)) h58
  have hc4 : ¬ ((b :: n' : List Nat) = [] ∨ 13 ∈ (b :: n' : List Nat) ∨
      10 ∈ (b :: n' : List Nat)) := by
    rintro (h | h | h)
    · exact absurd h (by simp)
    · exact (hnb _ h).2.1 rfl
    · exact (hnb _ h).2.2 rfl
  have hdw : (32 :: (vl ++ 13 :: 10 :: tail)).dropWhile (fun x => x == 32)
      = vl ++ 13 :: 10 :: tail := by
    rw [List.dropWhile_cons]
    simp only [beq_self_eq_true, if_true]
    refine dropWhile_space_of_head _ ?_
    exact head_ne_32_append vl 13 (10 :: tail) (by norm_num) hvh
  have hsplit2 : splitUntil 13 (vl ++ 13 :: 10 :: tail) = some (vl, 10 :: tail) :=
    splitUntil_append 13 vl (10 :: tail) (fun hm => (hvb _ hm).1 rfl)
  have hc5 : ¬ ((10 : Nat) ∈ vl) := fun hm => (hvb _ hm).2 rfl
  simp only [parseHeaders, if_neg hc1, if_neg hc2, if_neg hc3, hsplit1, if_neg hc4,
    hdw, hsplit2, if_neg hc5]

/-- `parseHeaders` reports the "too many headers" error as soon as a header
line is found with every slot filled. -/
theorem parseHeaders_full (cap f b : Nat) (r : List Nat)
    (acc : List (List Nat × List Nat)) (hb13 : b ≠ 13) (hacc : cap ≤ acc.length) :
    parseHeaders cap (f + 1) (b :: r) acc = .errTooMany := by
  have hc1 : ¬ ((b :: r).take 2 = [13, 10]) := by
    have e : (b :: r).take 2 = b :: r.take 1 := rfl
    rw [e]
    simp [hb13]
  have hc2 : (b :: r : List Nat) ≠ [] := by simp
  simp only [parseHeaders, if_neg hc1, if_neg hc2, if_pos hacc]

/-- `parseHeaders` on the serialization of well-formed headers that fit the
slot capacity parses them all and stops exactly after the blank-line
terminator. -/
theorem parseHeaders_complete (cap : Nat) :
    ∀ (hs : List (List Nat × List Nat)) (fuel : Nat) (acc : List (List Nat × List Nat))
      (rest : List Nat),
      (∀ h ∈ hs, wfHdr h) → acc.length + hs.length ≤ cap → hs.length < fuel →
      parseHeaders cap fuel ((hs.map mkHeaderLine).flatten ++ 13 :: 10 :: rest) acc
        = .complete (acc.reverse ++ hs) rest := by
  intro hs
  induction hs with
  | nil =>
    intro fuel acc rest _ _ hfuel
    cases fuel with
    | zero => exact absurd hfuel (Nat.not_lt_zero _)
    | succ f =>
      have e : parseHeaders cap (f + 1)
          (((([] : List (List Nat × List Nat)).map mkHeaderLine).flatten) ++ 13 :: 10 :: rest)
          acc = .complete acc.reverse rest := by
        simp only [List.map_nil, List.flatten_nil, List.nil_append, parseHeaders]
        rw [if_pos (show ((13 : Nat) :: 10 :: rest).take 2 = [13, 10] from rfl)]
        rfl
      rw [e]
      simp
  | cons hd t ih =>
    intro fuel acc rest hwf hcap hfuel
    obtain ⟨nm, vl⟩ := hd
    have hwfh : wfHdr (nm, vl) := hwf _ (by simp)
    cases fuel with
    | zero => exact absurd hfuel (Nat.not_lt_zero _)
    | succ f =>
      cases nm with
      | nil => exact absurd rfl hwfh.1.1
      | cons b n' =>
        have hinput : (((b :: n', vl) :: t).map mkHeaderLine).flatten ++ 13 :: 10 :: rest
            = b :: (n' ++ 58 :: 32 :: (vl ++ 13 :: 10 ::
                ((t.map mkHeaderLine).flatten ++ 13 :: 10 :: rest))) := by
          simp [mkHeaderLine, List.append_assoc]
        rw [hinput, parseHeaders_step cap f b n' vl _ acc hwfh (by simp at hcap; omega),
          ih f ((b :: n', vl) :: acc) rest (fun h hm => hwf h (by simp [hm]))
            (by simp at hcap ⊢; omega) (by simp at hfuel ⊢; omega)]
        simp

/-- `parseHeaders` on the serialization of well-formed headers that overflow
the slot capacity reports the "too many headers" error. -/
theorem parseHeaders_overflow (cap : Nat) :
    ∀ (hs : List (List Nat × List Nat)) (fuel : Nat) (acc : List (List Nat × List Nat))
      (rest : List Nat),
      (∀ h ∈ hs, wfHdr h) → acc.length ≤ cap → cap < acc.length + hs.length →
      hs.length < fuel →
      parseHeaders cap fuel ((hs.map mkHeaderLine).flatten ++ 13 :: 10 :: rest) acc
        = .errTooMany := by
  intro hs
  induction hs with
  | nil =>
    intro fuel acc rest _ hle hlt _
    simp at hlt
    omega
  | cons hd t ih =>
    intro fuel acc rest hwf hle hlt hfuel
    obtain ⟨nm, vl⟩ := hd
    have hwfh : wfHdr (nm, vl) := hwf _ (by simp)
    cases fuel with
    | zero => exact absurd hfuel (Nat.not_lt_zero _)
    | succ f =>
      cases nm with
      | nil => exact absurd rfl hwfh.1.1
      | cons b n' =>
        have hinput : (((b :: n', vl) :: t).map mkHeaderLine).flatten ++ 13 :: 10 :: rest
            = b :: (n' ++ 58 :: 32 :: (vl ++ 13 :: 10 ::
                ((t.map mkHeaderLine).flatten ++ 13 :: 10 :: rest))) := by
          simp [mkHeaderLine, List.append_assoc]
        rw [hinput]
        rcases Nat.lt_or_ge acc.length cap with hacc | hacc
        · rw [parseHeaders_step cap f b n' vl _ acc hwfh hacc]
          exact ih f ((b :: n', vl) :: acc) rest (fun h hm => hwf h (by simp [hm]))
            (by simp; omega) (by simp at hlt ⊢; omega) (by simp at hfuel ⊢; omega)
        · exact parseHeaders_full cap f b _ acc
            ((hwfh.1.2 b (by simp)).2.1) hacc

theorem length_le_flatten_mkHeaderLine (hs : List (List Nat × List Nat)) :
    hs.length ≤ ((hs.map mkHeaderLine).flatten).length := by
  induction hs with
  | nil => simp
  | cons h t ih =>
    simp only [List.map_cons, List.flatten_cons, List.length_append, List.length_cons,
      mkHeaderLine]
    simp at ih ⊢
    omega

/-- The tokenizer on the serialization of a well-formed request that fits
the slot capacity: it parses back exactly the abstract parts and reports the
serialized head's length as the consumed byte count. -/
theorem parseRequestHead_complete (cap : Nat) (m p : List Nat) (v : Nat)
    (hs : List (List Nat × List Nat)) (rest : List Nat)
    (hwf : wfRequest m p v hs) (hcap : hs.length ≤ cap) :
    parseRequestHead cap (mkRequest m p v hs ++ rest)
      = .complete m p v hs (mkRequest m p v hs).length := by
  obtain ⟨⟨hmne, hmb⟩, ⟨hpne, hpb⟩, hv, hhs⟩ := hwf
  have e1 : mkRequest m p v hs ++ rest
      = m ++ 32 :: (p ++ 32 :: (72 :: 84 :: 84 :: 80 :: 47 :: 49 :: 46 :: (48 + v) :: 13 :: 10 ::
          ((hs.map mkHeaderLine).flatten ++ 13 :: 10 :: rest))) := by
    simp [mkRequest, List.append_assoc]
  have hsp1 : splitUntil 32 (mkRequest m p v hs ++ rest)
      = some (m, p ++ 32 :: (72 :: 84 :: 84 :: 80 :: 47 :: 49 :: 46 :: (48 + v) :: 13 :: 10 ::
          ((hs.map mkHeaderLine).flatten ++ 13 :: 10 :: rest))) := by
    rw [e1]
    exact splitUntil_append 32 m _ (fun hm => (hmb _ hm).1 rfl)
  have hcm : ¬ (m = [] ∨ 13 ∈ m ∨ 10 ∈ m) := by
    rintro (h | h | h)
    · exact hmne h
    · exact (hmb _ h).2.1 rfl
    · exact (hmb _ h).2.2 rfl
  have hsp2 : splitUntil 32 (p ++ 32 :: (72 :: 84 :: 84 :: 80 :: 47 :: 49 :: 46 ::
        (48 + v) :: 13 :: 10 :: ((hs.map mkHeaderLine).flatten ++ 13 :: 10 :: rest)))
      = some (p, 72 :: 84 :: 84 :: 80 :: 47 :: 49 :: 46 :: (48 + v) :: 13 :: 10 ::
          ((hs.map mkHeaderLine).flatten ++ 13 :: 10 :: rest)) :=
    splitUntil_append 32 p _ (fun hm => (hpb _ hm).1 rfl)
  have hcp : ¬ (p = [] ∨ 13 ∈ p ∨ 10 ∈ p) := by
    rintro (h | h | h)
    · exact hpne h
    · exact (hpb _ h).2.1 rfl
    · exact (hpb _ h).2.2 rfl
  have hver : parseVersion (72 :: 84 :: 84 :: 80 :: 47 :: 49 :: 46 :: (48 + v) :: 13 :: 10 ::
        ((hs.map mkHeaderLine).flatten ++ 13 :: 10 :: rest))
      = some (v, (hs.map mkHeaderLine).flatten ++ 13 :: 10 :: rest) := by
    interval_cases v <;> rfl
  have hfuel : hs.length < ((hs.map mkHeaderLine).flatten ++ 13 :: 10 :: rest).length + 1 := by
    have := length_le_flatten_mkHeaderLine hs
    simp only [List.length_append, List.length_cons]
    omega
  have hph := parseHeaders_complete cap hs
      (((hs.map mkHeaderLine).flatten ++ 13 :: 10 :: rest).length + 1) [] rest hhs
      (by simpa using hcap) hfuel
  have hamt : (mkRequest m p v hs ++ rest).length - rest.length
      = (mkRequest m p v hs).length := by
    simp [List.length_append]
  have hph' : parseHeaders cap
      (((hs.map mkHeaderLine).flatten ++ 13 :: 10 :: rest).length + 1)
      ((hs.map mkHeaderLine).flatten ++ 13 :: 10 :: rest) [] = .complete hs rest := by
    simpa using hph
  simp only [parseRequestHead, hsp1, if_neg hcm, hsp2, if_neg hcp, hver, hph', hamt]

/-- C5: for every buffer consisting of one complete well-formed request with
`H = hs.length` headers (`H` at most the header-slot capacity) followed by
any trailing bytes, `decode` succeeds, the parsed headers are exactly the
`H` serialized ones, and the pending bytes afterward are exactly the bytes
after the header terminator (the buffer is advanced by the consumed
header-block length the tokenizer reports). -/
theorem c5_decode_complete_request (cap : Nat) (m p : List Nat) (v : Nat)
    (hs : List (List Nat × List Nat)) (rest : List Nat)
    (hwf : wfRequest m p v hs) (hcap : hs.length ≤ cap) :
    decode cap (mkRequest m p v hs ++ rest)
      = (.decoded m p v hs (mkRequest m p v hs).length, rest) := by
  have hterm := hasTerminator_mkRequest m p v hs rest
  have hdrop : (mkRequest m p v hs ++ rest).drop (mkRequest m p v hs).length = rest :=
    List.drop_left _ _
  simp only [decode, hterm, if_true, parseRequestHead_complete cap m p v hs rest hwf hcap,
    hdrop]

/-- Witness for C5: the request `"GET /i HTTP/1.1\r\nA: b\r\nC: d\r\n\r\n"`
with two headers and two pipelined bytes after it, at capacity 16. -/
theorem c5_decode_complete_request_witness :
    decode 16 (mkRequest [71, 69, 84] [47, 105] 1 [([65], [98]), ([67], [100])] ++ [88, 89])
      = (.decoded [71, 69, 84] [47, 105] 1 [([65], [98]), ([67], [100])]
          (mkRequest [71, 69, 84] [47, 105] 1 [([65], [98]), ([67], [100])]).length,
         [88, 89]) :=
  c5_decode_complete_request 16 [71, 69, 84] [47, 105] 1 [([65], [98]), ([67], [100])]
    [88, 89] (by decide) (by decide)

theorem splitLF_append (seg rest : List Nat) (h : 10 ∉ seg) :
    splitLF (seg ++ 10 :: rest) = seg :: splitLF rest := by
  induction seg with
  | nil => simp [splitLF]
  | cons b bs ih =>
    have hb : b ≠ 10 := fun he => h (by simp [he])
    have hbs : 10 ∉ bs := fun hm => h (by simp [hm])
    simp [splitLF, hb, ih hbs]

theorem splitLF_lines (hs : List (List Nat × List Nat)) (hwf : ∀ h ∈ hs, wfHdr h) :
    splitLF ((hs.map mkHeaderLine).flatten ++ [13, 10])
      = (hs.map fun h => h.1 ++ 58 :: 32 :: h.2 ++ [13]) ++ [[13], []] := by
  induction hs with
  | nil => rfl
  | cons hd t ih =>
    obtain ⟨nm, vl⟩ := hd
    obtain ⟨⟨-, hnb⟩, hvb, -⟩ := hwf (nm, vl) (by simp)
    have hseg : (10 : Nat) ∉ nm ++ 58 :: 32 :: vl ++ [13] := by
      have h1 : (10 : Nat) ∉ nm := fun hm' => (hnb _ hm').2.2 rfl
      have h2 : (10 : Nat) ∉ vl := fun hm' => (hvb _ hm').2 rfl
      simp [h1, h2]
    have e : (((nm, vl) :: t).map mkHeaderLine).flatten ++ [13, 10]
        = (nm ++ 58 :: 32 :: vl ++ [13]) ++ 10 :: ((t.map mkHeaderLine).flatten ++ [13, 10]) := by
      simp [mkHeaderLine, List.append_assoc]
    rw [e, splitLF_append _ _ hseg, ih (fun h hm => hwf h (by simp [hm]))]
    simp

theorem headerLike_headerSeg (nm vl : List Nat) (hwfh : wfHdr (nm, vl)) :
    headerLike (nm ++ 58 :: 32 :: vl ++ [13]) = true := by
  obtain ⟨⟨hne, hnb⟩, -, -⟩ := hwfh
  cases nm with
  | nil => exact absurd rfl hne
  | cons b n' =>
    have hb13 : b ≠ 13 := (hnb b (by simp)).2.1
    have htk : ((b :: n') ++ 58 :: 32 :: vl ++ [13]).take 2
        = b :: (n' ++ 58 :: 32 :: vl ++ [13]).take 1 := rfl
    simp [headerLike, startsWithCRLF, htk, hb13]

/-- The `TooManyHeaders` diagnostic counts exactly the header lines of a
serialized well-formed request whose request line contains no colon. -/
theorem countHeaderLines_mkRequest (m p : List Nat) (v : Nat)
    (hs : List (List Nat × List Nat)) (hwf : wfRequest m p v hs)
    (hm : 58 ∉ m) (hp : 58 ∉ p) :
    countHeaderLines (mkRequest m p v hs) = hs.length := by
  obtain ⟨⟨hmne, hmb⟩, ⟨hpne, hpb⟩, hv, hhs⟩ := hwf
  have hseg0 : (10 : Nat) ∉ m ++ 32 :: p ++ 32 :: 72 :: 84 :: 84 :: 80 :: 47 :: 49 :: 46 ::
      (48 + v) :: [13] := by
    have h1 : (10 : Nat) ∉ m := fun hm' => (hmb _ hm').2.2 rfl
    have h2 : (10 : Nat) ∉ p := fun hm' => (hpb _ hm').2.2 rfl
    have h3 : (10 : Nat) ≠ 48 + v := by omega
    simp [h1, h2, h3]
  have hnotCL : headerLike (m ++ 32 :: p ++ 32 :: 72 :: 84 :: 84 :: 80 :: 47 :: 49 :: 46 ::
      (48 + v) :: [13]) = false := by
    have h3 : (58 : Nat) ≠ 48 + v := by omega
    simp [headerLike, hm, hp, h3]
  have e0 : mkRequest m p v hs
      = (m ++ 32 :: p ++ 32 :: 72 :: 84 :: 84 :: 80 :: 47 :: 49 :: 46 :: (48 + v) :: [13]) ++
        10 :: ((hs.map mkHeaderLine).flatten ++ [13, 10]) := by
    simp [mkRequest, List.append_assoc]
  have hsegs : List.countP headerLike (hs.map fun h => h.1 ++ 58 :: 32 :: h.2 ++ [13])
      = hs.length := by
    have := List.countP_eq_length (p := headerLike)
        (l := hs.map fun h => h.1 ++ 58 :: 32 :: h.2 ++ [13])
    rw [this.2 ?_, List.length_map]
    intro a ha
    rcases List.mem_map.1 ha with ⟨h, hh, rfl⟩
    exact headerLike_headerSeg h.1 h.2 (hhs h hh)
  have hc2 : List.countP headerLike [[13], []] = 0 := by decide
  rw [countHeaderLines, e0, splitLF_append _ _ hseg0, splitLF_lines hs hhs,
    List.countP_cons, List.countP_append, hsegs, hc2, hnotCL]
  simp

/-- The tokenizer on the serialization of a well-formed request with more
headers than slots: it reports the "too many headers" error. -/
theorem parseRequestHead_overflow (cap : Nat) (m p : List Nat) (v : Nat)
    (hs : List (List Nat × List Nat)) (rest : List Nat)
    (hwf : wfRequest m p v hs) (hcap : cap < hs.length) :
    parseRequestHead cap (mkRequest m p v hs ++ rest) = .errTooManyHeaders := by
  obtain ⟨⟨hmne, hmb⟩, ⟨hpne, hpb⟩, hv, hhs⟩ := hwf
  have e1 : mkRequest m p v hs ++ rest
      = m ++ 32 :: (p ++ 32 :: (72 :: 84 :: 84 :: 80 :: 47 :: 49 :: 46 :: (48 + v) :: 13 :: 10 ::
          ((hs.map mkHeaderLine).flatten ++ 13 :: 10 :: rest))) := by
    simp [mkRequest, List.append_assoc]
  have hsp1 : splitUntil 32 (mkRequest m p v hs ++ rest)
      = some (m, p ++ 32 :: (72 :: 84 :: 84 :: 80 :: 47 :: 49 :: 46 :: (48 + v) :: 13 :: 10 ::
          ((hs.map mkHeaderLine).flatten ++ 13 :: 10 :: rest))) := by
    rw [e1]
    exact splitUntil_append 32 m _ (fun hm => (hmb _ hm).1 rfl)
  have hcm : ¬ (m = [] ∨ 13 ∈ m ∨ 10 ∈ m) := by
    rintro (h | h | h)
    · exact hmne h
    · exact (hmb _ h).2.1 rfl
    · exact (hmb _ h).2.2 rfl
  have hsp2 : splitUntil 32 (p ++ 32 :: (72 :: 84 :: 84 :: 80 :: 47 :: 49 :: 46 ::
        (48 + v) :: 13 :: 10 :: ((hs.map mkHeaderLine).flatten ++ 13 :: 10 :: rest)))
      = some (p, 72 :: 84 :: 84 :: 80 :: 47 :: 49 :: 46 :: (48 + v) :: 13 :: 10 ::
          ((hs.map mkHeaderLine).flatten ++ 13 :: 10 :: rest)) :=
    splitUntil_append 32 p _ (fun hm => (hpb _ hm).1 rfl)
  have hcp : ¬ (p = [] ∨ 13 ∈ p ∨ 10 ∈ p) := by
    rintro (h | h | h)
    · exact hpne h
    · exact (hpb _ h).2.1 rfl
    · exact (hpb _ h).2.2 rfl
  have hver : parseVersion (72 :: 84 :: 84 :: 80 :: 47 :: 49 :: 46 :: (48 + v) :: 13 :: 10 ::
        ((hs.map mkHeaderLine).flatten ++ 13 :: 10 :: rest))
      = some (v, (hs.map mkHeaderLine).flatten ++ 13 :: 10 :: rest) := by
    interval_cases v <;> rfl
  have hfuel : hs.length < ((hs.map mkHeaderLine).flatten ++ 13 :: 10 :: rest).length + 1 := by
    have := length_le_flatten_mkHeaderLine hs
    simp only [List.length_append, List.length_cons]
    omega
  have hph := parseHeaders_overflow cap hs
      (((hs.map mkHeaderLine).flatten ++ 13 :: 10 :: rest).length + 1) [] rest hhs
      (by simp) (by simpa using hcap) hfuel
  simp only [parseRequestHead, hsp1, if_neg hcm, hsp2, if_neg hcp, hver, hph]

/-- C6: for every buffer holding exactly one complete well-formed header
block with `H = cap + k` headers (`k > 0`), each header line containing a
colon and the request line containing none, `decode` fails with the
too-many-headers error reporting the observed header-line count `cap + k`,
the configured capacity `cap`, and overflow `k`, and the buffer is left
untouched. -/
theorem c6_decode_too_many_headers (cap k : Nat) (m p : List Nat) (v : Nat)
    (hs : List (List Nat × List Nat))
    (hwf : wfRequest m p v hs) (hm : 58 ∉ m) (hp : 58 ∉ p)
    (hk : 0 < k) (hlen : hs.length = cap + k) :
    decode cap (mkRequest m p v hs)
      = (.errTooManyHeaders (cap + k) cap k, mkRequest m p v hs) := by
  have hterm : hasTerminator (mkRequest m p v hs) = true := by
    simpa using hasTerminator_mkRequest m p v hs []
  have hovf : parseRequestHead cap (mkRequest m p v hs) = .errTooManyHeaders := by
    have := parseRequestHead_overflow cap m p v hs [] hwf (by omega)
    simpa using this
  have hcount : countHeaderLines (mkRequest m p v hs) = cap + k := by
    rw [countHeaderLines_mkRequest m p v hs hwf hm hp, hlen]
  simp only [decode, hterm, if_true, hovf, hcount, Nat.add_sub_cancel_left]

/-- Witness for C6: 17 single-byte headers against the `Default` capacity of
16 report observed count 17 and overflow 1. -/
theorem c6_decode_too_many_headers_witness :
    decode MaxHeaders.Default.value
        (mkRequest [71, 69, 84] [47] 1 (List.replicate 17 ([88], [121])))
      = (.errTooManyHeaders 17 16 1,
         mkRequest [71, 69, 84] [47] 1 (List.replicate 17 ([88], [121]))) := by
  have h := c6_decode_too_many_headers MaxHeaders.Default.value 1 [71, 69, 84] [47] 1
      (List.replicate 17 ([88], [121])) (by decide) (by decide) (by decide)
      (by decide) (by decide)
  exact h

/-- The 27 bytes of `"GET / HTTP/1.1\r\nHost: a\r\n\r\n"`. -/
def sampleGetRequest : List Nat :=
  [71, 69, 84, 32, 47, 32, 72, 84, 84, 80, 47, 49, 46, 49, 13, 10,
   72, 111, 115, 116, 58, 32, 97, 13, 10, 13, 10]

/-- Counterexample for C8: on `"GET / HTTP/1.1\r\nHost: a\r\n\r\n"`, `decode`
does return method `GET`, path `/`, version 1 and headers `[("Host", "a")]`,
but the consumed header-block length is 27 — the whole input is only 27
bytes — not the 28 the claim states. -/
theorem c8_consumed_length_counterexample :
    decode 16 sampleGetRequest
      = (.decoded [71, 69, 84] [47] 1 [([72, 111, 115, 116], [97])] 27, []) ∧
    sampleGetRequest.length = 27 ∧
    decode 16 sampleGetRequest
      ≠ (.decoded [71, 69, 84] [47] 1 [([72, 111, 115, 116], [97])] 28, []) := by
  decide

/-- C8 (amended): decoding the 27-byte buffer
`"GET / HTTP/1.1\r\nHost: a\r\n\r\n"` returns method `"GET"`, path `"/"`,
version 1, the single header `("Host", "a")`, and a consumed header-block
length of 27 bytes, the buffer being advanced past all 27 bytes. -/
theorem c8_decode_get_request :
    decode 16 sampleGetRequest
      = (.decoded [71, 69, 84] [47] 1 [([72, 111, 115, 116], [97])] 27,
         sampleGetRequest.drop 27) := by
  decide

/-! ### The body reader

`BodyReader` from `src/request.rs` (lines 167-242). The socket is modelled
as the finite sequence of outcomes of the successive `stream.read` calls:
each successful call delivers one chunk of bytes (`reserve_buf`, modelled
from the spec, guarantees the hole the bytes are read into is large enough,
so a chunk is delivered whole), and a failing call delivers an I/O error.
An empty socket yields `Ok(0)`, the end-of-stream signal. -/

/-- One outcome of a `stream.read` call. -/
inductive SocketChunk where
  | data (bytes : List Nat)
  | ioError
deriving DecidableEq

/-- State of a `BodyReader` from `src/request.rs` (lines 167-176): the
pending bytes of `req_buf`, the `body_limit` and `total_read` counters, and
the not-yet-consumed socket outcomes. -/
structure BodyReader where
  req_buf : List Nat
  body_limit : Nat
  total_read : Nat
  socket : List SocketChunk
deriving DecidableEq

/-- Result of an I/O operation: a value, or an `io::Error`. -/
inductive IOResult (α : Type) where
  | ok (val : α)
  | err
deriving DecidableEq

/-- `BodyReader::read_more_data` from `src/request.rs` (lines 179-185):
reserve space (modelled from the spec: `reserve_buf` only grows spare
capacity, a no-op on the unbounded model buffer), read once from the
socket, append the bytes to `req_buf`, and return the byte count. -/
def BodyReader.read_more_data (s : BodyReader) : IOResult Nat × BodyReader :=
  match s.socket with
  | [] => (.ok 0, ⟨s.req_buf, s.body_limit, s.total_read, []⟩)
  | .ioError :: rest => (.err, ⟨s.req_buf, s.body_limit, s.total_read, rest⟩)
  | .data bs :: rest => (.ok bs.length, ⟨s.req_buf ++ bs, s.body_limit, s.total_read, rest⟩)

/-- The retry loop inside `Read::read` for `BodyReader` (`src/request.rs`
lines 195-206): serve from `req_buf` if nonempty (at most
`min k (limit - total)` bytes, `k` being the caller's buffer size),
otherwise refill from the socket, returning `Ok(0)` if the socket is at
end-of-stream. -/
def readLoop (k limit : Nat) : Nat → List Nat → List SocketChunk →
    IOResult (List Nat) × BodyReader
  | total, req_buf, socket =>
    if req_buf.isEmpty then
      match socket with
      | [] => (.ok [], ⟨req_buf, limit, total, []⟩)
      | .ioError :: rest => (.err, ⟨req_buf, limit, total, rest⟩)
      | .data bs :: rest =>
        if bs.isEmpty then (.ok [], ⟨req_buf, limit, total, rest⟩)
        else readLoop k limit total (req_buf ++ bs) rest
    else
      let n := min (min k (limit - total)) req_buf.length
      (.ok (req_buf.take n), ⟨req_buf.drop n, limit, total + n, socket⟩)

/-- `Read::read` for `BodyReader` from `src/request.rs` (lines 190-207),
with a caller buffer of size `k`; returns the bytes delivered. -/
def BodyReader.read (s : BodyReader) (k : Nat) : IOResult (List Nat) × BodyReader :=
  if s.body_limit ≤ s.total_read then (.ok [], s)
  else readLoop k s.body_limit s.total_read s.req_buf s.socket

/-- `BufRead::fill_buf` for `BodyReader` from `src/request.rs`
(lines 211-221): peek at up to `limit - total` buffered bytes, refilling
from the socket once if the buffer is empty. -/
def BodyReader.fill_buf (s : BodyReader) : IOResult (List Nat) × BodyReader :=
  let remain := s.body_limit - s.total_read
  if remain = 0 then (.ok [], s)
  else
    match (if s.req_buf.isEmpty then s.read_more_data else (.ok 0, s)) with
    | (.err, s1) => (.err, s1)
    | (.ok _, s1) =>
      let n := min s1.req_buf.length remain
      (.ok (s1.req_buf.take n), s1)

/-- `BufRead::consume` for `BodyReader` from `src/request.rs`
(lines 223-228). The two `assert!` preconditions are modelled by returning
`none` (a panic) when violated. -/
def BodyReader.consume (s : BodyReader) (amt : Nat) : Option BodyReader :=
  if amt ≤ s.body_limit - s.total_read ∧ amt ≤ s.req_buf.length then
    some ⟨s.req_buf.drop amt, s.body_limit, s.total_read + amt, s.socket⟩
  else none

/-- The `Drop` loop for `BodyReader` from `src/request.rs` (lines 231-242):
repeatedly `fill_buf` then `consume` the whole peeked chunk, stopping on an
empty peek or on an I/O error (`while let Ok(n)` swallows the error). The
`none` branch of `consume` is unreachable in this loop. `fuel` bounds the
recursion. -/
def drainStep : Nat → BodyReader → BodyReader
  | 0, s => s
  | fuel + 1, s =>
    match s.fill_buf with
    | (.err, s1) => s1
    | (.ok bs, s1) =>
      if bs.isEmpty then s1
      else
        match s1.consume bs.length with
        | some s2 => drainStep fuel s2
        | none => s1

/-- `Drop::drop` for `BodyReader`: the drain loop, run with enough fuel
(each iteration either consumes a socket outcome or brings `total_read`
closer to `body_limit`, so this fuel always suffices). -/
def BodyReader.drop (s : BodyReader) : BodyReader :=
  drainStep (s.socket.length + (s.body_limit - s.total_read) + 1) s

/-- The bytes a socket still holds (data chunks flattened). -/
def socketData : List SocketChunk → List Nat
  | [] => []
  | .data bs :: rest => bs ++ socketData rest
  | .ioError :: rest => socketData rest

/-- A socket trace with no I/O errors and no empty data chunks (a TCP read
returns zero bytes only at end-of-stream). -/
def goodChunk : SocketChunk → Bool
  | .data bs => !bs.isEmpty
  | .ioError => false

/-- One caller-visible operation on a body stream. -/
inductive BodyOp where
  | read (k : Nat)
  | fillBuf
  | consume (n : Nat)
deriving DecidableEq

/-- Run one operation, returning the number of body bytes it delivered to
the caller (`read` delivers the bytes it returns, `consume` delivers the
bytes whose consumption it records, a peek delivers nothing). A panicking
`consume` delivers nothing and stops mattering (the process dies); it is
modelled as a no-op. -/
def stepOp (s : BodyReader) : BodyOp → Nat × BodyReader
  | .read k =>
    match s.read k with
    | (.ok bs, s1) => (bs.length, s1)
    | (.err, s1) => (0, s1)
  | .fillBuf => (0, (s.fill_buf).2)
  | .consume n =>
    match s.consume n with
    | some s1 => (n, s1)
    | none => (0, s)

/-- Run a sequence of operations, totalling the delivered byte counts. -/
def runOps : List BodyOp → BodyReader → Nat × BodyReader
  | [], s => (0, s)
  | op :: ops, s =>
    let r := stepOp s op
    let r2 := runOps ops r.2
    (r.1 + r2.1, r2.2)

/-- Once `total_read` has reached `body_limit`, `read` returns zero bytes
and leaves the state unchanged. -/
theorem read_at_limit (s : BodyReader) (k : Nat) (h : s.body_limit ≤ s.total_read) :
    s.read k = (.ok [], s) := by
  simp [BodyReader.read, h]

/-- Once `total_read` has reached `body_limit`, `fill_buf` returns the empty
slice and leaves the state unchanged. -/
theorem fill_buf_at_limit (s : BodyReader) (h : s.body_limit ≤ s.total_read) :
    s.fill_buf = (.ok [], s) := by
  simp [BodyReader.fill_buf, Nat.sub_eq_zero_of_le h]

/-- C9: `consume n` succeeds exactly under its two assertion preconditions
(`n` at most the remaining limit and at most the buffered byte count),
advancing the buffer cursor and `total_read` by exactly `n`; violating
either precondition is a panic (modelled `none`), not a recoverable
error. -/
theorem c9_consume_contract (s : BodyReader) (n : Nat) :
    ((n ≤ s.body_limit - s.total_read ∧ n ≤ s.req_buf.length) →
      s.consume n = some ⟨s.req_buf.drop n, s.body_limit, s.total_read + n, s.socket⟩) ∧
    (¬ (n ≤ s.body_limit - s.total_read ∧ n ≤ s.req_buf.length) →
      s.consume n = none) := by
  constructor <;> intro h <;> simp [BodyReader.consume, h]

/-- Witness for C9: a legal `consume 2` advances cursor and counter by 2; an
illegal `consume 4` (only 3 bytes buffered) panics. -/
theorem c9_consume_contract_witness :
    BodyReader.consume ⟨[1, 2, 3], 5, 0, []⟩ 2 = some ⟨[3], 5, 2, []⟩ ∧
    BodyReader.consume ⟨[1, 2, 3], 5, 0, []⟩ 4 = none :=
  ⟨(c9_consume_contract ⟨[1, 2, 3], 5, 0, []⟩ 2).1 (by decide),
   (c9_consume_contract ⟨[1, 2, 3], 5, 0, []⟩ 4).2 (by decide)⟩

/-- C10: when the socket is at end-of-stream (a read would return zero
bytes) while `total_read` is still below `body_limit` and the buffer is
empty, `read` returns `Ok` with zero bytes — exactly the value any reader
at the limit returns — rather than an error, so a truncated body is
indistinguishable from a completely delivered one. -/
theorem c10_truncated_body_reads_ok_zero (s : BodyReader) (k : Nat)
    (h1 : s.req_buf = []) (h2 : s.total_read < s.body_limit) (h3 : s.socket = []) :
    s.read k = (.ok [], s) ∧
    ∀ t : BodyReader, t.body_limit ≤ t.total_read → t.read k = (.ok [], t) := by
  refine ⟨?_, fun t ht => read_at_limit t k ht⟩
  obtain ⟨buf, L, tr, sk⟩ := s
  simp only [BodyReader.req_buf] at h1
  simp only [BodyReader.socket] at h3
  simp only [BodyReader.total_read, BodyReader.body_limit] at h2
  subst h1 h3
  have hnl : ¬ (L ≤ tr) := by omega
  simp [BodyReader.read, readLoop, hnl]

/-- Witness for C10: an empty reader that got only 1 of 3 promised bytes
returns `Ok` with zero bytes, as does a reader at its limit. -/
theorem c10_truncated_body_reads_ok_zero_witness :
    BodyReader.read ⟨[], 3, 1, []⟩ 4 = (.ok [], ⟨[], 3, 1, []⟩) ∧
    BodyReader.read ⟨[7], 2, 2, []⟩ 4 = (.ok [], ⟨[7], 2, 2, []⟩) := by
  have h := c10_truncated_body_reads_ok_zero ⟨[], 3, 1, []⟩ 4 rfl (by decide) rfl
  exact ⟨h.1, h.2 ⟨[7], 2, 2, []⟩ (by decide)⟩

/-- The `read` retry loop preserves `body_limit`, keeps `total_read` within
the limit, and advances `total_read` by exactly the number of bytes it
returns. -/
theorem readLoop_spec (k limit : Nat) (socket : List SocketChunk) :
    ∀ (total : Nat) (req_buf : List Nat), total ≤ limit →
      (readLoop k limit total req_buf socket).2.body_limit = limit ∧
      (readLoop k limit total req_buf socket).2.total_read ≤ limit ∧
      (readLoop k limit total req_buf socket).2.total_read
        = total + (match (readLoop k limit total req_buf socket).1 with
                   | .ok bs => bs.length
                   | .err => 0) := by
  induction socket with
  | nil =>
    intro total req_buf h
    by_cases hb : req_buf.isEmpty
    · simp [readLoop, hb, h]
    · simp [readLoop, hb]
      omega
  | cons c rest ih =>
    intro total req_buf h
    by_cases hb : req_buf.isEmpty
    · cases c with
      | ioError => simp [readLoop, hb, h]
      | data bs =>
        by_cases hbs : bs.isEmpty
        · simp [readLoop, hb, hbs, h]
        · have := ih total (req_buf ++ bs) h
          simpa [readLoop, hb, hbs] using this
    · cases c <;> simp [readLoop, hb] <;> omega

/-- `fill_buf` never moves the `body_limit` or `total_read` counters. -/
theorem fill_buf_state (s : BodyReader) :
    (s.fill_buf).2.body_limit = s.body_limit ∧
    (s.fill_buf).2.total_read = s.total_read := by
  by_cases h0 : s.body_limit - s.total_read = 0
  · simp [BodyReader.fill_buf, h0]
  · by_cases hb : s.req_buf.isEmpty
    · rcases hs : s.socket with - | ⟨c, rest⟩
      · simp [BodyReader.fill_buf, h0, hb, BodyReader.read_more_data, hs]
      · cases c <;> simp [BodyReader.fill_buf, h0, hb, BodyReader.read_more_data, hs]
    · simp [BodyReader.fill_buf, h0, hb]

/-- Each operation preserves `body_limit`, delivers exactly the increase of
`total_read`, and keeps `total_read` within the limit. -/
theorem stepOp_spec (s : BodyReader) (op : BodyOp) (h : s.total_read ≤ s.body_limit) :
    (stepOp s op).2.body_limit = s.body_limit ∧
    (stepOp s op).2.total_read = s.total_read + (stepOp s op).1 ∧
    (stepOp s op).2.total_read ≤ s.body_limit := by
  cases op with
  | read k =>
    by_cases hl : s.body_limit ≤ s.total_read
    · simp [stepOp, BodyReader.read, hl]
      omega
    · have hspec := readLoop_spec k s.body_limit s.socket s.total_read s.req_buf h
      rcases hr : readLoop k s.body_limit s.total_read s.req_buf s.socket with ⟨res, s1⟩
      rw [hr] at hspec
      cases res with
      | ok bs =>
        simp only [stepOp, BodyReader.read, if_neg hl, hr]
        simp at hspec ⊢
        obtain ⟨ha, hb2, hc⟩ := hspec
        refine ⟨?_, ?_, ?_⟩ <;> omega
      | err =>
        simp only [stepOp, BodyReader.read, if_neg hl, hr]
        simp at hspec ⊢
        obtain ⟨ha, hb2, hc⟩ := hspec
        refine ⟨?_, ?_, ?_⟩ <;> omega
  | fillBuf =>
    have := fill_buf_state s
    simp [stepOp, this.1, this.2]
    omega
  | consume n =>
    by_cases hc : n ≤ s.body_limit - s.total_read ∧ n ≤ s.req_buf.length
    · simp [stepOp, BodyReader.consume, hc]
      omega
    · simp [stepOp, BodyReader.consume, hc]
      omega

/-- Running any operation sequence preserves `body_limit`, delivers exactly
the increase of `total_read`, and keeps `total_read` within the limit. -/
theorem runOps_spec (ops : List BodyOp) :
    ∀ s : BodyReader, s.total_read ≤ s.body_limit →
      (runOps ops s).2.body_limit = s.body_limit ∧
      (runOps ops s).2.total_read = s.total_read + (runOps ops s).1 ∧
      (runOps ops s).2.total_read ≤ s.body_limit := by
  induction ops with
  | nil => intro s h; simpa [runOps] using h
  | cons op ops ih =>
    intro s h
    have h1 := stepOp_spec s op h
    have h2 := ih (stepOp s op).2 (by omega)
    simp only [runOps]
    refine ⟨by omega, by omega, by omega⟩

/-- C1: for a body stream created with `Content-Length` limit `L`
(`total_read = 0`), over any sequence of `read`, `fill_buf` and `consume`
operations and regardless of buffer or socket contents, the total number of
body bytes delivered never exceeds `L` (it always equals the final
`total_read`), and once `L` bytes have been delivered every further `read`
returns zero bytes and every further `fill_buf` returns an empty slice. -/
theorem c1_body_limit_enforced (L : Nat) (buf : List Nat) (socket : List SocketChunk)
    (ops : List BodyOp) :
    (runOps ops ⟨buf, L, 0, socket⟩).1 ≤ L ∧
    (runOps ops ⟨buf, L, 0, socket⟩).2.total_read = (runOps ops ⟨buf, L, 0, socket⟩).1 ∧
    ((runOps ops ⟨buf, L, 0, socket⟩).1 = L → ∀ k,
      (runOps ops ⟨buf, L, 0, socket⟩).2.read k
        = (.ok [], (runOps ops ⟨buf, L, 0, socket⟩).2) ∧
      (runOps ops ⟨buf, L, 0, socket⟩).2.fill_buf
        = (.ok [], (runOps ops ⟨buf, L, 0, socket⟩).2)) := by
  have h := runOps_spec ops ⟨buf, L, 0, socket⟩ (by simp)
  simp only [BodyReader.body_limit, BodyReader.total_read] at h
  refine ⟨by omega, by omega, fun hL k => ?_⟩
  have hlim : (runOps ops ⟨buf, L, 0, socket⟩).2.body_limit
      ≤ (runOps ops ⟨buf, L, 0, socket⟩).2.total_read := by omega
  exact ⟨read_at_limit _ k hlim, fill_buf_at_limit _ hlim⟩

/-- Witness for C1: limit 1 with 2 buffered bytes; one `read` delivers
exactly 1 byte, after which `read` and `fill_buf` return zero bytes. -/
theorem c1_body_limit_enforced_witness :
    (runOps [BodyOp.read 5] ⟨[7, 8], 1, 0, []⟩).1 ≤ 1 ∧
    ((runOps [BodyOp.read 5] ⟨[7, 8], 1, 0, []⟩).2.read 3
        = (.ok [], (runOps [BodyOp.read 5] ⟨[7, 8], 1, 0, []⟩).2) ∧
      (runOps [BodyOp.read 5] ⟨[7, 8], 1, 0, []⟩).2.fill_buf
        = (.ok [], (runOps [BodyOp.read 5] ⟨[7, 8], 1, 0, []⟩).2)) := by
  have h := c1_body_limit_enforced 1 [7, 8] [] [BodyOp.read 5]
  exact ⟨h.1, h.2.2 (by decide) 3⟩

/-- Core correctness of the drain loop: on an error-free socket with no
empty chunks holding at least the body remainder, enough fuel drives
`total_read` to `body_limit` and leaves exactly the post-body bytes
unconsumed (split between buffer and socket). -/
theorem drainStep_spec :
    ∀ (fuel : Nat) (s : BodyReader),
      s.socket.all goodChunk = true →
      s.total_read ≤ s.body_limit →
      s.body_limit - s.total_read ≤ s.req_buf.length + (socketData s.socket).length →
      s.socket.length + (s.body_limit - s.total_read) < fuel →
      (drainStep fuel s).body_limit = s.body_limit ∧
      (drainStep fuel s).total_read = s.body_limit ∧
      (drainStep fuel s).req_buf ++ socketData (drainStep fuel s).socket
        = (s.req_buf ++ socketData s.socket).drop (s.body_limit - s.total_read) := by
  intro fuel
  induction fuel with
  | zero => intro s _ _ _ hf; exact absurd hf (Nat.not_lt_zero _)
  | succ fuel ih =>
    rintro ⟨buf, L, t, sk⟩ hclean hle havail hfuel
    dsimp only at hclean hle havail hfuel ⊢
    by_cases h0 : L - t = 0
    · have hds : drainStep (fuel + 1) (⟨buf, L, t, sk⟩ : BodyReader) = ⟨buf, L, t, sk⟩ := by
        simp [drainStep, BodyReader.fill_buf, h0]
      rw [hds]
      refine ⟨rfl, by dsimp only; omega, by dsimp only; rw [h0]; simp⟩
    · by_cases hb : buf.isEmpty
      · have hbe : buf = [] := by simpa [List.isEmpty_iff] using hb
        subst hbe
        cases sk with
        | nil =>
          exfalso
          simp [socketData] at havail
          omega
        | cons c rest =>
          cases c with
          | ioError => simp [goodChunk] at hclean
          | data bs =>
            rw [List.all_cons, Bool.and_eq_true] at hclean
            have hbs : bs ≠ [] := by
              intro h'
              subst h'
              simp [goodChunk] at hclean
            have hrest : rest.all goodChunk = true := hclean.2
            have hbl : 1 ≤ bs.length := by
              cases bs with
              | nil => exact absurd rfl hbs
              | cons x xs => simp
            have havail2 : L - t ≤ bs.length + (socketData rest).length := by
              simpa [socketData] using havail
            simp only [List.length_cons] at hfuel
            have hfb : BodyReader.fill_buf ⟨[], L, t, .data bs :: rest⟩
                = (.ok (bs.take (min bs.length (L - t))), ⟨bs, L, t, rest⟩) := by
              simp [BodyReader.fill_buf, BodyReader.read_more_data, h0]
            have htk : (bs.take (min bs.length (L - t))).isEmpty = false := by
              have h1 : 0 < (bs.take (min bs.length (L - t))).length := by
                rw [List.length_take]
                omega
              cases hq : bs.take (min bs.length (L - t)) with
              | nil => rw [hq] at h1; simp at h1
              | cons x xs => simp [hq]
            have hlen : (bs.take (min bs.length (L - t))).length
                = min bs.length (L - t) := by
              simp [List.length_take]
            have hcons : BodyReader.consume ⟨bs, L, t, rest⟩ (min bs.length (L - t))
                = some ⟨bs.drop (min bs.length (L - t)), L,
                    t + min bs.length (L - t), rest⟩ := by
              simp only [BodyReader.consume]
              rw [if_pos (⟨Nat.min_le_right _ _, Nat.min_le_left _ _⟩ :
                min bs.length (L - t) ≤ L - t ∧ min bs.length (L - t) ≤ bs.length)]
            have hds : drainStep (fuel + 1) (⟨[], L, t, .data bs :: rest⟩ : BodyReader)
                = drainStep fuel ⟨bs.drop (min bs.length (L - t)), L,
                    t + min bs.length (L - t), rest⟩ := by
              simp only [drainStep, hfb, htk, Bool.false_eq_true, if_false, hlen, hcons]
            have hspec := ih ⟨bs.drop (min bs.length (L - t)), L,
                t + min bs.length (L - t), rest⟩
                (by dsimp only; exact hrest)
                (by dsimp only; omega)
                (by dsimp only; simp only [List.length_drop]; omega)
                (by dsimp only; omega)
            obtain ⟨hsA, hsB, hsC⟩ := hspec
            dsimp only at hsA hsB hsC
            rw [hds]
            refine ⟨hsA, hsB, ?_⟩
            rw [hsC]
            simp only [socketData, List.nil_append]
            rw [← List.drop_append_of_le_length (by omega :
              min bs.length (L - t) ≤ bs.length), List.drop_drop]
            congr 1
            omega
      · have hbne : buf ≠ [] := by simpa [List.isEmpty_iff] using hb
        have hbl : 1 ≤ buf.length := by
          cases buf with
          | nil => exact absurd rfl hbne
          | cons x xs => simp
        have hfb : BodyReader.fill_buf ⟨buf, L, t, sk⟩
            = (.ok (buf.take (min buf.length (L - t))), ⟨buf, L, t, sk⟩) := by
          simp [BodyReader.fill_buf, h0, hb]
        have htk : (buf.take (min buf.length (L - t))).isEmpty = false := by
          have h1 : 0 < (buf.take (min buf.length (L - t))).length := by
            rw [List.length_take]
            omega
          cases hq : buf.take (min buf.length (L - t)) with
          | nil => rw [hq] at h1; simp at h1
          | cons x xs => simp [hq]
        have hlen : (buf.take (min buf.length (L - t))).length
            = min buf.length (L - t) := by
          simp [List.length_take]
        have hcons : BodyReader.consume ⟨buf, L, t, sk⟩ (min buf.length (L - t))
            = some ⟨buf.drop (min buf.length (L - t)), L,
                t + min buf.length (L - t), sk⟩ := by
          simp only [BodyReader.consume]
          rw [if_pos (⟨Nat.min_le_right _ _, Nat.min_le_left _ _⟩ :
            min buf.length (L - t) ≤ L - t ∧ min buf.length (L - t) ≤ buf.length)]
        have hds : drainStep (fuel + 1) (⟨buf, L, t, sk⟩ : BodyReader)
            = drainStep fuel ⟨buf.drop (min buf.length (L - t)), L,
                t + min buf.length (L - t), sk⟩ := by
          simp only [drainStep, hfb, htk, Bool.false_eq_true, if_false, hlen, hcons]
        have hspec := ih ⟨buf.drop (min buf.length (L - t)), L,
            t + min buf.length (L - t), sk⟩
            (by dsimp only; exact hclean)
            (by dsimp only; omega)
            (by dsimp only; simp only [List.length_drop]; omega)
            (by dsimp only; omega)
        obtain ⟨hsA, hsB, hsC⟩ := hspec
        dsimp only at hsA hsB hsC
        rw [hds]
        refine ⟨hsA, hsB, ?_⟩
        rw [hsC]
        rw [← List.drop_append_of_le_length (by omega :
          min buf.length (L - t) ≤ buf.length), List.drop_drop]
        congr 1
        omega


/-- C2: part one — releasing a `BodyReader` whose error-free socket (with
no empty chunks) still holds at least the undelivered remainder of the
body drains `total_read` up to exactly `body_limit`, leaving exactly the
bytes after the L-byte body pending (first in the buffer, the rest on the
socket), so the next `decode` on the connection starts at the first byte
after this request's body; part two — an I/O error during the drain is
swallowed: the drop loop stops and returns normally instead of
propagating it. -/
theorem c2_drop_drains_to_body_end :
    (∀ s : BodyReader,
      s.socket.all goodChunk = true →
      s.total_read ≤ s.body_limit →
      s.body_limit - s.total_read ≤ s.req_buf.length + (socketData s.socket).length →
      (s.drop).total_read = s.body_limit ∧
      (s.drop).req_buf ++ socketData (s.drop).socket
        = (s.req_buf ++ socketData s.socket).drop (s.body_limit - s.total_read)) ∧
    (∀ (limit total : Nat) (rest : List SocketChunk), total < limit →
      BodyReader.drop ⟨[], limit, total, .ioError :: rest⟩
        = ⟨[], limit, total, rest⟩) := by
  constructor
  · intro s h1 h2 h3
    have hs := drainStep_spec (s.socket.length + (s.body_limit - s.total_read) + 1) s
        h1 h2 h3 (by omega)
    exact ⟨hs.2.1, hs.2.2⟩
  · intro limit total rest hlt
    have h0 : ¬ (limit - total = 0) := by omega
    have hfb : BodyReader.fill_buf ⟨[], limit, total, .ioError :: rest⟩
        = (.err, ⟨[], limit, total, rest⟩) := by
      simp [BodyReader.fill_buf, BodyReader.read_more_data, h0]
    simp only [BodyReader.drop, drainStep, hfb]

/-- Witness for C2: a reader with limit 3 that consumed 1 byte, 2 bytes
buffered and 2 more on the socket, drains to `total_read = 3` leaving byte
8 and the socket bytes pending; and a reader facing an immediate I/O error
swallows it. -/
theorem c2_drop_drains_to_body_end_witness :
    ((BodyReader.drop ⟨[5, 6], 3, 1, [.data [7, 8]]⟩).total_read = 3 ∧
      (BodyReader.drop ⟨[5, 6], 3, 1, [.data [7, 8]]⟩).req_buf ++
          socketData (BodyReader.drop ⟨[5, 6], 3, 1, [.data [7, 8]]⟩).socket
        = ([5, 6] ++ socketData [.data [7, 8]]).drop 2) ∧
    BodyReader.drop ⟨[], 2, 0, [.ioError]⟩ = ⟨[], 2, 0, []⟩ :=
  ⟨c2_drop_drains_to_body_end.1 ⟨[5, 6], 3, 1, [.data [7, 8]]⟩
      (by decide) (by decide) (by decide),
   c2_drop_drains_to_body_end.2 2 0 [] (by decide)⟩

/-! ### Content-Length handling -/

/-- Model of `std::str::from_utf8(value).unwrap().parse::<usize>().unwrap()`
from `Request::content_length` in `src/request.rs` (line 284), at byte
level: an optional leading `+`, then at least one ASCII digit and nothing
else, with the result at most `usize::MAX`; any other byte sequence (which
includes anything that is not valid UTF-8) makes one of the two `unwrap`
calls panic, modelled as `none`. -/
def parseUsize (bs : List Nat) : Option Nat :=
  let ds := match bs with
    | 43 :: rest => rest
    | _ => bs
  if ds.isEmpty then none
  else if ds.all (fun b => 48 ≤ b && b ≤ 57) then
    let n := ds.foldl (fun a b => a * 10 + (b - 48)) 0
    if n < 2 ^ 64 then some n else none
  else none

/-- ASCII lowercasing of one byte. -/
def toLowerByte (b : Nat) : Nat := if 65 ≤ b ∧ b ≤ 90 then b + 32 else b

/-- Model of `str::eq_ignore_ascii_case`. -/
def eqIgnoreAsciiCase (a b : List Nat) : Bool :=
  a.map toLowerByte == b.map toLowerByte

/-- The bytes of `"content-length"`. -/
def contentLengthName : List Nat :=
  [99, 111, 110, 116, 101, 110, 116, 45, 108, 101, 110, 103, 116, 104]

/-- `Request::content_length` from `src/request.rs` (lines 280-289): scan
the headers for the first one named `content-length` (ASCII
case-insensitively); if none matches the length is 0; otherwise the value
is converted with two `unwrap` calls, panicking (`none`) when it does not
parse. -/
def content_length (hs : List (List Nat × List Nat)) : Option Nat :=
  match hs.find? (fun h => eqIgnoreAsciiCase h.1 contentLengthName) with
  | none => some 0
  | some h => parseUsize h.2

/-- `Request::body` from `src/request.rs` (lines 271-278): build the
`BodyReader` with `body_limit := content_length`, `total_read := 0`, and
ownership of the buffer and socket; `none` when `content_length`
panics. -/
def requestBody (hs : List (List Nat × List Nat)) (buf : List Nat)
    (socket : List SocketChunk) : Option BodyReader :=
  (content_length hs).map (fun L => ⟨buf, L, 0, socket⟩)

/-- Counterexample for C3: with the single header
`Content-Length: abc`, `content_length` does not evaluate to 0 — the
`parse().unwrap()` panics — and converting the request into a body stream
panics instead of producing a reader with limit 0, so an unparsable value
is not "treated permissively as having no body". -/
theorem c3_unparsable_content_length_counterexample :
    content_length
        [([67, 111, 110, 116, 101, 110, 116, 45, 76, 101, 110, 103, 116, 104],
          [97, 98, 99])] ≠ some 0 ∧
    requestBody
        [([67, 111, 110, 116, 101, 110, 116, 45, 76, 101, 110, 103, 116, 104],
          [97, 98, 99])] [] [] = none := by
  decide

/-- C3 (amended): converting a parsed request into a body stream computes
the body limit as 0 when the Content-Length header is absent and as the
parsed value when the header value parses as a non-negative integer at
most `usize::MAX`; when the value fails to parse, the conversion panics —
the request is neither treated as having no body nor rejected
recoverably. -/
theorem c3_content_length_amended (hs : List (List Nat × List Nat)) (buf : List Nat)
    (socket : List SocketChunk) :
    (hs.find? (fun h => eqIgnoreAsciiCase h.1 contentLengthName) = none →
      requestBody hs buf socket = some ⟨buf, 0, 0, socket⟩) ∧
    (∀ hd, hs.find? (fun h => eqIgnoreAsciiCase h.1 contentLengthName) = some hd →
      parseUsize hd.2 = none → requestBody hs buf socket = none) ∧
    (∀ hd L, hs.find? (fun h => eqIgnoreAsciiCase h.1 contentLengthName) = some hd →
      parseUsize hd.2 = some L → requestBody hs buf socket = some ⟨buf, L, 0, socket⟩) := by
  refine ⟨fun hn => ?_, fun hd hf hp => ?_, fun hd L hf hp => ?_⟩
  · simp only [requestBody, content_length, hn]
    rfl
  · simp only [requestBody, content_length, hf, hp]
    rfl
  · simp only [requestBody, content_length, hf, hp]
    rfl

/-- Witness for C3 (amended), covering all three cases: no header (limit
0), header `Content-Length: x` (panic), header `Content-Length: 42`
(limit 42). -/
theorem c3_content_length_amended_witness :
    requestBody [] [1] [] = some ⟨[1], 0, 0, []⟩ ∧
    requestBody [([67, 111, 110, 116, 101, 110, 116, 45, 76, 101, 110, 103, 116, 104],
        [120])] [] [] = none ∧
    requestBody [([67, 111, 110, 116, 101, 110, 116, 45, 76, 101, 110, 103, 116, 104],
        [52, 50])] [2] [] = some ⟨[2], 42, 0, []⟩ :=
  ⟨(c3_content_length_amended [] [1] []).1 (by decide),
   (c3_content_length_amended _ [] []).2.1
     ([67, 111, 110, 116, 101, 110, 116, 45, 76, 101, 110, 103, 116, 104], [120])
     (by decide) (by decide),
   (c3_content_length_amended _ [2] []).2.2
     ([67, 111, 110, 116, 101, 110, 116, 45, 76, 101, 110, 103, 116, 104], [52, 50]) 42
     (by decide) (by decide)⟩

end MayMinihttp
